import Mathlib

/-!
Verification of the AgeEstimation training program (`main.py`).

The development shallowly embeds the pure logic of `main.py`:
the loss weights and age range constants, the mean/variance
distribution loss, the leave-one-subject-out dataset split
(`get_image_list`), the best-metric checkpoint trackers of the epoch
loop, the freeze/unfreeze schedule, the softmax-loss paths of `train`
and `evaluate`, and the batch-averaging divisions of `evaluate` and
`test`.  Machine floats are modelled by `ℚ` where the code's values are
exact and by `ℝ` where transcendental functions (softmax / log) enter.
Fallible Python code (exceptions) is modelled with `Except`.
-/

namespace AgeEstimation

/-! ### Module-level constants (`main.py` lines 20-28) -/

def LAMBDA_1 : ℚ := 0.2

def LAMBDA_2 : ℚ := 0.05

def START_AGE : ℕ := 0

def END_AGE : ℕ := 69

def VALIDATION_RATE : ℚ := 0.1

/-! ### Mean/variance distribution loss

Modelled from the spec: the file `mean_variance_loss.py` (imported by
`main.py` line 18) is not part of the sources; §4.1 of the spec gives
the contract of `MeanVarianceLoss`: the class scores of each sample are
a discrete probability distribution over the age vector
`a = [start_age, …, end_age]`; `mean_loss` is the batch average of
`(μ - label)² / 2` scaled by the first weight `λ1`, and
`variance_loss` is the batch average of `σ² = Σ_k p_k (a_k - μ)²`
scaled by the second weight `λ2`.  The constructor takes the weights
in the spec's order `(λ1, λ2, start_age, end_age)`.
-/

structure MeanVarianceLoss (α : Type) where
  lambda_1 : α
  lambda_2 : α
  start_age : ℕ
  end_age : ℕ

/-- The fixed age vector `a = [start_age, …, end_age]`
(`torch.arange(start_age, end_age + 1)`). -/
def MeanVarianceLoss.ageVec {α : Type} [LinearOrderedField α]
    (L : MeanVarianceLoss α) {K : ℕ} (k : Fin K) : α :=
  (L.start_age : α) + (k.val : α)

/-- Expected age `μ_i = Σ_k p_{i,k} · a_k` of sample `i`. -/
def MeanVarianceLoss.mean {α : Type} [LinearOrderedField α]
    (L : MeanVarianceLoss α) {K : ℕ} (p : Fin K → α) : α :=
  ∑ k, p k * L.ageVec k

/-- Expected squared deviation `σ²_i = Σ_k p_{i,k} · (a_k - μ_i)²`. -/
def MeanVarianceLoss.variance {α : Type} [LinearOrderedField α]
    (L : MeanVarianceLoss α) {K : ℕ} (p : Fin K → α) : α :=
  ∑ k, p k * (L.ageVec k - L.mean p) ^ 2

/-- Modelled from the spec (§4.1): `forward` returns the pair
`(λ1 · batch-average of (μ - label)²/2, λ2 · batch-average of σ²)`. -/
def MeanVarianceLoss.forward {α : Type} [LinearOrderedField α]
    (L : MeanVarianceLoss α) {n K : ℕ}
    (p : Fin n → Fin K → α) (labels : Fin n → α) : α × α :=
  (L.lambda_1 * ((∑ i, (L.mean (p i) - labels i) ^ 2 / 2) / (n : α)),
   L.lambda_2 * ((∑ i, L.variance (p i)) / (n : α)))

/-- The criterion constructed in `main` (`main.py` line 207):
`criterion1 = MeanVarianceLoss(LAMBDA_2, LAMBDA_1, START_AGE, END_AGE)`.
Note the argument order of the call: `LAMBDA_2` is passed first. -/
def criterion1 : MeanVarianceLoss ℚ :=
  ⟨LAMBDA_2, LAMBDA_1, START_AGE, END_AGE⟩

/-- One-hot distribution at class 2 (a single-sample batch). -/
def oneHotTwo : Fin 1 → Fin 70 → ℚ :=
  fun _ k => if k = (2 : Fin 70) then 1 else 0

/-- Distribution of a single-sample batch putting probability 1/2 on
classes 0 and 1 each. -/
def halfHalf : Fin 1 → Fin 70 → ℚ :=
  fun _ k =>
    (if k = (0 : Fin 70) then (1 : ℚ)/2 else 0) + (if k = (1 : Fin 70) then (1 : ℚ)/2 else 0)

/-- **C1.** The claim states that the criterion constructed in `main`
applies weight `λ1 = 0.2` to the mean term and `λ2 = 0.05` to the
variance term.  The code violates this: `main.py` line 207 constructs
`MeanVarianceLoss(LAMBDA_2, LAMBDA_1, START_AGE, END_AGE)`, passing the
weights swapped, so the mean term is scaled by `0.05` and the variance
term by `0.2`.  Evaluated at a one-hot distribution on class 2 with
label 0 (batch of one), the mean loss is `0.05 · (2-0)²/2 = 1/10`, not
`0.2 · (2-0)²/2 = 2/5`; at a half/half distribution on classes 0 and
1, the variance loss is `0.2 · 1/4 = 1/20`, not `0.05 · 1/4 = 1/80`. -/
theorem c1_criterion_weights_swapped :
    (criterion1.forward oneHotTwo fun _ => 0).1 = 1/10 ∧
    (criterion1.forward halfHalf fun _ => 0).2 = 1/20 ∧
    (1/10 : ℚ) ≠ LAMBDA_1 * (((2 : ℚ) - 0) ^ 2 / 2) ∧
    (1/20 : ℚ) ≠ LAMBDA_2 * (1/4) := by
  refine ⟨?_, ?_, by norm_num [LAMBDA_1], by norm_num [LAMBDA_2]⟩
  · simp [MeanVarianceLoss.forward, MeanVarianceLoss.mean, MeanVarianceLoss.ageVec,
      criterion1, oneHotTwo, START_AGE, LAMBDA_2, ite_mul, Finset.sum_ite_eq']
    norm_num
  · simp [MeanVarianceLoss.forward, MeanVarianceLoss.mean, MeanVarianceLoss.variance,
      MeanVarianceLoss.ageVec, criterion1, halfHalf, START_AGE, LAMBDA_1,
      add_mul, ite_mul, Finset.sum_add_distrib, Finset.sum_ite_eq']
    norm_num

/-! ### Leave-one-subject-out split (`get_image_list`, `main.py` lines 133-154)

Filenames are Lean `String`s; the subject id is `int(fn[:3])`, the
first three characters parsed as a (digit-string) integer, raising
`ValueError` otherwise.  `np.random.choice(num, k, replace=False)` is
modelled by an oracle `choice : ℕ → ℕ → Finset ℕ` supplying the drawn
index set; numpy's contract (k distinct indices below `num`, drawn
uniformly) enters theorems as hypotheses on the oracle.
-/

/-- Value of a decimal digit character, `none` if not a digit. -/
def charDigit (c : Char) : Option ℕ :=
  if '0' ≤ c ∧ c ≤ '9' then some (c.toNat - '0'.toNat) else none

/-- Parse a digit string as a natural number (every character must be
a digit). -/
def parseNatCore (cs : List Char) : Option ℕ :=
  cs.foldl (fun acc c =>
    match acc, charDigit c with
    | some n, some d => some (n * 10 + d)
    | _, _ => none) (some 0)

/-- `int(fn[:3])` (`main.py` line 139): the first three characters of
the filename parsed as an integer; `none` models the `ValueError` of a
non-numeric prefix. -/
def subjectOf (fn : String) : Option ℤ :=
  match fn.data.take 3 with
  | [] => none
  | cs => (parseNatCore cs).map Int.ofNat

/-- `os.path.join(image_directory, fn)` (`main.py` line 138). -/
def pathJoin (dir fn : String) : String := dir ++ "/" ++ fn

/-- First loop of `get_image_list` (lines 137-143): files whose subject
id equals `leave` go to the test list, the rest to the train/val pool,
both in listing order; a filename with a non-numeric 3-character prefix
raises `ValueError`. -/
def splitBySubject (dir : String) (leave : ℤ) :
    List String → Except String (List String × List String)
  | [] => .ok ([], [])
  | fn :: rest =>
    match subjectOf fn with
    | none => .error "ValueError"
    | some s =>
      match splitBySubject dir leave rest with
      | .error e => .error e
      | .ok (tv, t) =>
        if s = leave then .ok (tv, pathJoin dir fn :: t)
        else .ok (pathJoin dir fn :: tv, t)

/-- Second loop of `get_image_list` (lines 146-152): the pool entry at
position `i` goes to the validation list if `i ∈ idx` and to the train
list otherwise, in order.  The first argument of the recursion is the
position of the head. -/
def splitValTrain (idx : Finset ℕ) : ℕ → List String → List String × List String
  | _, [] => ([], [])
  | i, fp :: rest =>
    if i ∈ idx then
      ((splitValTrain idx (i + 1) rest).1, fp :: (splitValTrain idx (i + 1) rest).2)
    else
      (fp :: (splitValTrain idx (i + 1) rest).1, (splitValTrain idx (i + 1) rest).2)

/-- `int(num * validation_rate)` (line 145); Python `int` truncates
toward zero, which for the nonnegative products arising here (the rate
is `0.1`) is the floor. -/
def numValidation (num : ℕ) (rate : ℚ) : ℕ := (⌊(num : ℚ) * rate⌋).toNat

/-- `get_image_list(image_directory, leave_sub, validation_rate)`
(`main.py` lines 133-154), with the directory listing and the
`np.random.choice` draw passed explicitly. -/
def get_image_list (dir : String) (choice : ℕ → ℕ → Finset ℕ)
    (listing : List String) (leave : ℤ) (rate : ℚ) :
    Except String (List String × List String × List String) :=
  match splitBySubject dir leave listing with
  | .error e => .error e
  | .ok (train_val, test_list) =>
    let num := train_val.length
    let index_val := choice num (numValidation num rate)
    let (tr, v) := splitValTrain index_val 0 train_val
    .ok (tr, v, test_list)

/-- Train component of a split result (`[]` on error). -/
def okTrain : Except String (List String × List String × List String) → List String
  | .ok (tr, _, _) => tr
  | .error _ => []

/-- Validation component of a split result (`[]` on error). -/
def okVal : Except String (List String × List String × List String) → List String
  | .ok (_, v, _) => v
  | .error _ => []

/-- Test component of a split result (`[]` on error). -/
def okTest : Except String (List String × List String × List String) → List String
  | .ok (_, _, te) => te
  | .error _ => []

/-- Whether a filename is assigned to the test set: its parsed subject
id equals the leave-out id. -/
def matchesLeave (leave : ℤ) (fn : String) : Bool :=
  decide (subjectOf fn = some leave)

/-- A successful first loop puts exactly the matching files (as paths,
in order) into the test list and the others into the pool. -/
theorem splitBySubject_ok {dir : String} {leave : ℤ} {l tv te : List String}
    (h : splitBySubject dir leave l = .ok (tv, te)) :
    tv = (l.filter fun fn => !matchesLeave leave fn).map (pathJoin dir) ∧
    te = (l.filter fun fn => matchesLeave leave fn).map (pathJoin dir) := by
  induction l generalizing tv te with
  | nil =>
    simp only [splitBySubject, Except.ok.injEq, Prod.mk.injEq] at h
    simp [← h.1, ← h.2]
  | cons fn rest ih =>
    unfold splitBySubject at h
    cases hs : subjectOf fn with
    | none => rw [hs] at h; exact absurd h (by simp)
    | some s =>
      rw [hs] at h
      cases hsp : splitBySubject dir leave rest with
      | error e => rw [hsp] at h; exact absurd h (by simp)
      | ok p =>
        obtain ⟨tv', te'⟩ := p
        rw [hsp] at h
        dsimp only at h
        obtain ⟨htv', hte'⟩ := ih hsp
        by_cases hle : s = leave
        · rw [if_pos hle] at h
          simp only [Except.ok.injEq, Prod.mk.injEq] at h
          subst hle
          simp [← h.1, ← h.2, List.filter_cons, matchesLeave, hs, htv', hte']
        · rw [if_neg hle] at h
          simp only [Except.ok.injEq, Prod.mk.injEq] at h
          simp [← h.1, ← h.2, List.filter_cons, matchesLeave, hs, hle, htv', hte']

/-- The first loop succeeds exactly when every filename has a numeric
3-character prefix. -/
theorem splitBySubject_isOk {dir : String} {leave : ℤ} (l : List String)
    (hparse : ∀ fn ∈ l, (subjectOf fn).isSome) :
    ∃ tv te, splitBySubject dir leave l = .ok (tv, te) := by
  induction l with
  | nil => exact ⟨[], [], rfl⟩
  | cons fn rest ih =>
    obtain ⟨tv', te', hsp⟩ := ih (fun g hg => hparse g (List.mem_cons_of_mem fn hg))
    have hs := hparse fn (List.mem_cons_self fn rest)
    cases hs' : subjectOf fn with
    | none => rw [hs'] at hs; exact absurd hs (by simp)
    | some s =>
      unfold splitBySubject
      rw [hs', hsp]
      dsimp only
      by_cases hle : s = leave
      · exact ⟨tv', pathJoin dir fn :: te', by rw [if_pos hle]⟩
      · exact ⟨pathJoin dir fn :: tv', te', by rw [if_neg hle]⟩

/-- The second loop only redistributes the pool: train and validation
lists together are a permutation of the pool. -/
theorem splitValTrain_perm (idx : Finset ℕ) (i : ℕ) (l : List String) :
    List.Perm ((splitValTrain idx i l).1 ++ (splitValTrain idx i l).2) l := by
  induction l generalizing i with
  | nil => simp [splitValTrain]
  | cons fp rest ih =>
    unfold splitValTrain
    by_cases h : i ∈ idx
    · rw [if_pos h]
      exact List.perm_middle.trans ((ih (i + 1)).cons fp)
    · rw [if_neg h]
      exact (ih (i + 1)).cons fp

/-- The validation list holds exactly the pool entries whose position
lies in the drawn index set, in order. -/
theorem splitValTrain_val (idx : Finset ℕ) (i : ℕ) (l : List String) :
    (splitValTrain idx i l).2 =
      ((List.enumFrom i l).filter fun p => decide (p.1 ∈ idx)).map Prod.snd := by
  induction l generalizing i with
  | nil => simp [splitValTrain]
  | cons fp rest ih =>
    unfold splitValTrain
    by_cases h : i ∈ idx
    · rw [if_pos h]
      simp [List.enumFrom, List.filter_cons, h, ih (i + 1)]
    · rw [if_neg h]
      simp [List.enumFrom, List.filter_cons, h, ih (i + 1)]

/-- The train list holds exactly the pool entries whose position lies
outside the drawn index set, in order. -/
theorem splitValTrain_train (idx : Finset ℕ) (i : ℕ) (l : List String) :
    (splitValTrain idx i l).1 =
      ((List.enumFrom i l).filter fun p => !decide (p.1 ∈ idx)).map Prod.snd := by
  induction l generalizing i with
  | nil => simp [splitValTrain]
  | cons fp rest ih =>
    unfold splitValTrain
    by_cases h : i ∈ idx
    · rw [if_pos h]
      simp [List.enumFrom, List.filter_cons, h, ih (i + 1)]
    · rw [if_neg h]
      simp [List.enumFrom, List.filter_cons, h, ih (i + 1)]

/-- Counting form of `splitValTrain_val`: the validation list's length
counts the positions drawn into the index set. -/
theorem splitValTrain_val_length (idx : Finset ℕ) (i : ℕ) (l : List String) :
    (splitValTrain idx i l).2.length =
      (List.range' i l.length).countP fun j => decide (j ∈ idx) := by
  induction l generalizing i with
  | nil => simp [splitValTrain]
  | cons fp rest ih =>
    unfold splitValTrain
    rw [List.length_cons, List.range'_succ]
    by_cases h : i ∈ idx
    · rw [if_pos h]
      simp [List.countP_cons, h, ih (i + 1)]
    · rw [if_neg h]
      simp [List.countP_cons, h, ih (i + 1)]

/-- Counting positions of `range n` inside an index set contained in
`range n` yields the index set's size. -/
theorem countP_range_mem (idx : Finset ℕ) (n : ℕ) (hsub : idx ⊆ Finset.range n) :
    (List.range n).countP (fun j => decide (j ∈ idx)) = idx.card := by
  have h : ((Finset.range n).filter (fun j => j ∈ idx)).card
      = (List.range n).countP (fun j => decide (j ∈ idx)) := by
    simp [Finset.filter, Finset.card, Finset.range, Multiset.range, Multiset.filter_coe,
      List.countP_eq_length_filter]
  rw [← h, Finset.filter_mem_eq_inter, Finset.inter_eq_right.mpr hsub]

/-- `int(num * 0.1)` is the natural-number floor division `num / 10`. -/
theorem numValidation_tenth (n : ℕ) : numValidation n VALIDATION_RATE = n / 10 := by
  unfold numValidation VALIDATION_RATE
  rw [show ((n : ℚ) * 0.1) = (n : ℚ) / ((10 : ℕ) : ℚ) by push_cast; ring]
  rw [Int.floor_toNat, Nat.floor_div_nat, Nat.floor_natCast]

/-- Unfolding `get_image_list` through concrete first-loop and
count computations. -/
theorem get_image_list_eq (dir : String) (choice : ℕ → ℕ → Finset ℕ)
    (listing : List String) (leave : ℤ) (rate : ℚ)
    (pool te : List String) (k : ℕ)
    (hsplit : splitBySubject dir leave listing = .ok (pool, te))
    (hk : numValidation pool.length rate = k) :
    get_image_list dir choice listing leave rate =
      .ok ((splitValTrain (choice pool.length k) 0 pool).1,
           ((splitValTrain (choice pool.length k) 0 pool).2, te)) := by
  unfold get_image_list
  rw [hsplit]
  dsimp only
  rw [hk]

/-- Inversion of a successful `get_image_list` run into its two
loops. -/
theorem get_image_list_ok_inv {dir : String} {choice : ℕ → ℕ → Finset ℕ}
    {listing : List String} {leave : ℤ} {rate : ℚ} {tr v te : List String}
    (hok : get_image_list dir choice listing leave rate = .ok (tr, v, te)) :
    ∃ pool, splitBySubject dir leave listing = .ok (pool, te) ∧
      tr = (splitValTrain (choice pool.length (numValidation pool.length rate)) 0 pool).1 ∧
      v = (splitValTrain (choice pool.length (numValidation pool.length rate)) 0 pool).2 := by
  unfold get_image_list at hok
  cases hsp : splitBySubject dir leave listing with
  | error e => rw [hsp] at hok; exact absurd hok (by simp)
  | ok p =>
    obtain ⟨pool, te'⟩ := p
    rw [hsp] at hok
    dsimp only at hok
    simp only [Except.ok.injEq, Prod.mk.injEq] at hok
    obtain ⟨htr, hv, hte⟩ := hok
    exact ⟨pool, by rw [hte], htr.symm, hv.symm⟩

/-- `np.random.choice(n, k, replace=False)` draws `k` distinct indices
below `n`; `exChoice` is a concrete oracle satisfying that contract. -/
def exChoice : ℕ → ℕ → Finset ℕ := fun _ k => Finset.range k

theorem exChoice_spec : ∀ n k, k ≤ n →
    (exChoice n k).card = k ∧ exChoice n k ⊆ Finset.range n :=
  fun _ k h => ⟨Finset.card_range k, Finset.range_subset.mpr h⟩

/-- A concrete directory listing: subject 001 and subject 002 have one
file each, subjects 003-012 one file each. -/
def exListing : List String :=
  ["001x.jpg", "003b.jpg", "002a.jpg", "004.jpg", "005.jpg", "006.jpg",
   "007.jpg", "008.jpg", "009.jpg", "010.jpg", "011.jpg", "012.jpg"]

/-- **C4.** For every directory listing and leave-out subject id,
`get_image_list` returns three lists forming a partition of the input
files: the test list holds exactly the files whose filename-encoded
subject id equals the leave-out id; from the remaining pool of size
`n`, exactly `floor(n * 0.1) = n / 10` distinct indices drawn without
replacement (oracle contract of `np.random.choice`) form the
validation list, and every other pool file is in the training list. -/
theorem c4_split_partition (dir : String) (choice : ℕ → ℕ → Finset ℕ)
    (listing : List String) (leave : ℤ) (tr v te : List String)
    (hchoice : ∀ n k, k ≤ n → (choice n k).card = k ∧ choice n k ⊆ Finset.range n)
    (hok : get_image_list dir choice listing leave VALIDATION_RATE = .ok (tr, v, te)) :
    te = (listing.filter fun fn => matchesLeave leave fn).map (pathJoin dir) ∧
    v.length = (listing.filter fun fn => !matchesLeave leave fn).length / 10 ∧
    List.Perm (tr ++ v ++ te) (listing.map (pathJoin dir)) ∧
    (∀ pool idx,
      pool = (listing.filter fun fn => !matchesLeave leave fn).map (pathJoin dir) →
      idx = choice pool.length (pool.length / 10) →
      v = ((List.enumFrom 0 pool).filter fun p => decide (p.1 ∈ idx)).map Prod.snd ∧
      tr = ((List.enumFrom 0 pool).filter fun p => !decide (p.1 ∈ idx)).map Prod.snd) := by
  obtain ⟨pool, hsp, htr, hv⟩ := get_image_list_ok_inv hok
  obtain ⟨hpool, hte⟩ := splitBySubject_ok hsp
  rw [numValidation_tenth] at htr hv
  obtain ⟨hcard, hsub⟩ :=
    hchoice pool.length (pool.length / 10) (Nat.div_le_self _ _)
  have hlen : pool.length = (listing.filter fun fn => !matchesLeave leave fn).length := by
    rw [hpool, List.length_map]
  refine ⟨hte, ?_, ?_, ?_⟩
  · rw [hv, splitValTrain_val_length, ← List.range_eq_range',
      countP_range_mem _ _ hsub, hcard, hlen]
  · rw [htr, hv]
    refine ((splitValTrain_perm _ 0 pool).append_right te).trans ?_
    rw [hpool, hte, ← List.map_append]
    exact (List.perm_append_comm.trans
      (List.filter_append_perm (fun fn => matchesLeave leave fn) listing)).map _
  · intro pool' idx hpool' hidx
    rw [← hpool] at hpool'
    subst hpool'
    rw [hidx]
    exact ⟨by rw [hv, splitValTrain_val], by rw [htr, splitValTrain_train]⟩

/-- Witness for `c4_split_partition` at a concrete listing of twelve
files with leave-out subject 1: the eleven-file pool yields a single
validation file and the partition is a permutation of the listing. -/
theorem c4_split_partition_witness :
    List.Perm
      (okTrain (get_image_list "d" exChoice exListing 1 VALIDATION_RATE) ++
       okVal (get_image_list "d" exChoice exListing 1 VALIDATION_RATE) ++
       okTest (get_image_list "d" exChoice exListing 1 VALIDATION_RATE))
      (exListing.map (pathJoin "d")) ∧
    okTest (get_image_list "d" exChoice exListing 1 VALIDATION_RATE) = ["d/001x.jpg"] ∧
    (okVal (get_image_list "d" exChoice exListing 1 VALIDATION_RATE)).length = 1 := by
  have hok := get_image_list_eq "d" exChoice exListing 1 VALIDATION_RATE
    ["d/003b.jpg", "d/002a.jpg", "d/004.jpg", "d/005.jpg", "d/006.jpg", "d/007.jpg",
     "d/008.jpg", "d/009.jpg", "d/010.jpg", "d/011.jpg", "d/012.jpg"]
    ["d/001x.jpg"] 1 (by rfl) (by rw [numValidation_tenth]; rfl)
  have h := c4_split_partition "d" exChoice exListing 1 _ _ _ exChoice_spec hok
  rw [hok]
  exact ⟨h.2.2.1, rfl, rfl⟩

/-- **C5 (amended).** With the random draw fixed, the split is
deterministic (equal inputs give equal partitions), and test-set
membership depends only on whether a file's subject id equals the
leave-out id, so two runs differing only in the leave-out id move
exactly the matching files in or out of the test set.  (The claim's
further assertion that no non-matching file changes membership at all
is false — see the counterexample: train/validation assignment of pool
files can shift.) -/
theorem c5_determinism_and_test_membership (dir : String)
    (choice : ℕ → ℕ → Finset ℕ) (listing : List String) (leave₁ leave₂ : ℤ)
    (r₁ r₂ : List String × List String × List String)
    (h₁ : get_image_list dir choice listing leave₁ VALIDATION_RATE = .ok r₁)
    (h₂ : get_image_list dir choice listing leave₂ VALIDATION_RATE = .ok r₂) :
    (leave₁ = leave₂ → r₁ = r₂) ∧
    r₁.2.2 = (listing.filter fun fn => matchesLeave leave₁ fn).map (pathJoin dir) ∧
    r₂.2.2 = (listing.filter fun fn => matchesLeave leave₂ fn).map (pathJoin dir) := by
  obtain ⟨tr₁, v₁, te₁⟩ := r₁
  obtain ⟨tr₂, v₂, te₂⟩ := r₂
  refine ⟨?_, ?_, ?_⟩
  · intro hl
    subst hl
    rw [h₁] at h₂
    simpa using h₂
  · obtain ⟨pool, hsp, -, -⟩ := get_image_list_ok_inv h₁
    exact (splitBySubject_ok hsp).2
  · obtain ⟨pool, hsp, -, -⟩ := get_image_list_ok_inv h₂
    exact (splitBySubject_ok hsp).2

/-- Witness for `c5_determinism_and_test_membership` at the concrete
listing with leave-out subjects 1 and 2. -/
theorem c5_determinism_witness :
    okTest (get_image_list "d" exChoice exListing 1 VALIDATION_RATE) =
      (exListing.filter fun fn => matchesLeave 1 fn).map (pathJoin "d") ∧
    okTest (get_image_list "d" exChoice exListing 2 VALIDATION_RATE) =
      (exListing.filter fun fn => matchesLeave 2 fn).map (pathJoin "d") := by
  have hok₁ := get_image_list_eq "d" exChoice exListing 1 VALIDATION_RATE
    ["d/003b.jpg", "d/002a.jpg", "d/004.jpg", "d/005.jpg", "d/006.jpg", "d/007.jpg",
     "d/008.jpg", "d/009.jpg", "d/010.jpg", "d/011.jpg", "d/012.jpg"]
    ["d/001x.jpg"] 1 (by rfl) (by rw [numValidation_tenth]; rfl)
  have hok₂ := get_image_list_eq "d" exChoice exListing 2 VALIDATION_RATE
    ["d/001x.jpg", "d/003b.jpg", "d/004.jpg", "d/005.jpg", "d/006.jpg", "d/007.jpg",
     "d/008.jpg", "d/009.jpg", "d/010.jpg", "d/011.jpg", "d/012.jpg"]
    ["d/002a.jpg"] 1 (by rfl) (by rw [numValidation_tenth]; rfl)
  have h := c5_determinism_and_test_membership "d" exChoice exListing 1 2 _ _ hok₁ hok₂
  rw [hok₁, hok₂]
  exact ⟨h.2.1, h.2.2⟩

/-- **C5 counterexample.** The claim that between two runs differing
only in the leave-out subject id "no other file changes set
membership" is false: with the same fixed index draw, the file
`003b.jpg` (subject 3, matching neither leave-out id) is a validation
file when subject 1 is left out but a training file when subject 2 is
left out, because removing a different file shifts the pool indices. -/
theorem c5_changed_membership_counterexample :
    subjectOf "003b.jpg" = some 3 ∧ (3 : ℤ) ≠ 1 ∧ (3 : ℤ) ≠ 2 ∧
    "d/003b.jpg" ∈ okVal (get_image_list "d" exChoice exListing 1 VALIDATION_RATE) ∧
    "d/003b.jpg" ∈ okTrain (get_image_list "d" exChoice exListing 2 VALIDATION_RATE) := by
  refine ⟨by decide, by decide, by decide, ?_, ?_⟩
  · rw [get_image_list_eq "d" exChoice exListing 1 VALIDATION_RATE
      ["d/003b.jpg", "d/002a.jpg", "d/004.jpg", "d/005.jpg", "d/006.jpg", "d/007.jpg",
       "d/008.jpg", "d/009.jpg", "d/010.jpg", "d/011.jpg", "d/012.jpg"]
      ["d/001x.jpg"] 1 (by rfl) (by rw [numValidation_tenth]; rfl)]
    decide
  · rw [get_image_list_eq "d" exChoice exListing 2 VALIDATION_RATE
      ["d/001x.jpg", "d/003b.jpg", "d/004.jpg", "d/005.jpg", "d/006.jpg", "d/007.jpg",
       "d/008.jpg", "d/009.jpg", "d/010.jpg", "d/011.jpg", "d/012.jpg"]
      ["d/002a.jpg"] 1 (by rfl) (by rw [numValidation_tenth]; rfl)]
    decide

/-! ### Best-metric checkpoint trackers (`main.py` lines 218-221 and 237-244)

Per-epoch validation metrics are exact rationals here; `np.inf`, the
initial best value, is modelled by `none`.  A tracker records the best
value seen, the epoch that achieved it (`-1` initially), and the list
of epochs whose evaluation overwrote the checkpoint file.
-/

structure Tracker where
  best : Option ℚ
  bestEpoch : ℤ
  writes : List ℕ
deriving DecidableEq

/-- `best_val_mae = np.inf; best_mae_epoch = -1` (lines 218-221). -/
def Tracker.init : Tracker := ⟨none, -1, []⟩

/-- Python's `best > x` where `best` may be `np.inf`. -/
def ltBest (x : ℚ) : Option ℚ → Bool
  | none => true
  | some b => decide (x < b)

/-- One epoch of the checkpoint policy (lines 237-240 resp. 241-244):
on strict improvement record the metric and the epoch and overwrite
the checkpoint file; otherwise do nothing. -/
def Tracker.step (t : Tracker) (epoch : ℕ) (x : ℚ) : Tracker :=
  if ltBest x t.best then ⟨some x, epoch, t.writes ++ [epoch]⟩ else t

/-- The tracker folded over the per-epoch metrics, epochs numbered
from `i`. -/
def runTrackerFrom (i : ℕ) (t : Tracker) : List ℚ → Tracker
  | [] => t
  | x :: rest => runTrackerFrom (i + 1) (t.step i x) rest

/-- The tracker over a full run (epochs `0, 1, …`). -/
def runTracker (xs : List ℚ) : Tracker := runTrackerFrom 0 .init xs

/-- The epoch loop updates the MAE tracker and the loss tracker in one
pass (lines 237-244). -/
def runTrackersFrom (i : ℕ) (tm tl : Tracker) :
    List (ℚ × ℚ) → Tracker × Tracker
  | [] => (tm, tl)
  | p :: rest => runTrackersFrom (i + 1) (tm.step i p.1) (tl.step i p.2) rest

/-- Both trackers over a full run of per-epoch `(mae, loss)` pairs. -/
def runTrackers (ps : List (ℚ × ℚ)) : Tracker × Tracker :=
  runTrackersFrom 0 .init .init ps

/-- Minimum of a list of metrics, `none` (`np.inf`) when empty. -/
def listMin : List ℚ → Option ℚ
  | [] => none
  | x :: rest =>
    match listMin rest with
    | none => some x
    | some m => some (min x m)

/-- First index attaining the minimum, `-1` for the empty list. -/
def firstIdxOfMin (xs : List ℚ) : ℤ :=
  match listMin xs with
  | none => -1
  | some m => ((xs.indexOf m : ℕ) : ℤ)

/-- Minimum of two optional metrics (`none` is `np.inf`). -/
def optMin : Option ℚ → Option ℚ → Option ℚ
  | none, b => b
  | some a, none => some a
  | some a, some b => some (min a b)

/-- Order on optional metrics (`none` is `np.inf`). -/
def optLe : Option ℚ → Option ℚ → Bool
  | _, none => true
  | none, some _ => false
  | some a, some b => decide (a ≤ b)

theorem Tracker.step_best (t : Tracker) (i : ℕ) (x : ℚ) :
    (t.step i x).best = optMin t.best (some x) := by
  cases hb : t.best with
  | none => simp [Tracker.step, ltBest, hb, optMin]
  | some b =>
    by_cases hx : x < b
    · simp [Tracker.step, ltBest, hb, hx, optMin, min_eq_right (le_of_lt hx)]
    · simp [Tracker.step, ltBest, hb, hx, optMin, min_eq_left (not_lt.mp hx)]

theorem optMin_assoc (a b c : Option ℚ) :
    optMin (optMin a b) c = optMin a (optMin b c) := by
  cases a <;> cases b <;> cases c <;> simp [optMin, min_assoc]

theorem optMin_none_right (a : Option ℚ) : optMin a none = a := by
  cases a <;> rfl

theorem listMin_cons (x : ℚ) (rest : List ℚ) :
    listMin (x :: rest) = optMin (some x) (listMin rest) := by
  cases h : listMin rest <;> simp [listMin, h, optMin]

/-- Generalized invariant: the best value after processing a suffix is
the minimum of the incoming best and the suffix minimum. -/
theorem runTrackerFrom_best (xs : List ℚ) (i : ℕ) (t : Tracker) :
    (runTrackerFrom i t xs).best = optMin t.best (listMin xs) := by
  induction xs generalizing i t with
  | nil => simp [runTrackerFrom, listMin, optMin_none_right]
  | cons x rest ih =>
    rw [runTrackerFrom, ih, Tracker.step_best, optMin_assoc, listMin_cons]

/-- Specification of the recorded best epoch after processing a
suffix from position `i` with incoming state `t`: a suffix whose
minimum strictly beats the incoming best installs the first position
attaining that minimum; otherwise the incoming epoch survives. -/
def epochSpec (i : ℕ) (t : Tracker) (xs : List ℚ) : ℤ :=
  match listMin xs, t.best with
  | none, _ => t.bestEpoch
  | some m, none => (i : ℤ) + (xs.indexOf m : ℕ)
  | some m, some b => if m < b then (i : ℤ) + (xs.indexOf m : ℕ) else t.bestEpoch

/-- Generalized invariant for the recorded best epoch. -/
theorem runTrackerFrom_epoch (xs : List ℚ) (i : ℕ) (t : Tracker) :
    (runTrackerFrom i t xs).bestEpoch = epochSpec i t xs := by
  induction xs generalizing i t with
  | nil => cases h : t.best <;> simp [runTrackerFrom, epochSpec, listMin]
  | cons x rest ih =>
    rw [runTrackerFrom, ih]
    cases hrest : listMin rest with
    | none =>
      have hmin : listMin (x :: rest) = some x := by rw [listMin_cons, hrest]; rfl
      cases hb : t.best with
      | none =>
        have hstep : t.step i x = ⟨some x, (i : ℤ), t.writes ++ [i]⟩ := by
          simp [Tracker.step, ltBest, hb]
        simp [epochSpec, hstep, hrest, hmin, hb, List.indexOf_cons_self]
      | some b =>
        by_cases hx : x < b
        · have hstep : t.step i x = ⟨some x, (i : ℤ), t.writes ++ [i]⟩ := by
            simp [Tracker.step, ltBest, hb, hx]
          simp [epochSpec, hstep, hrest, hmin, hb, hx, List.indexOf_cons_self]
        · have hstep : t.step i x = t := by simp [Tracker.step, ltBest, hb, hx]
          simp [epochSpec, hstep, hrest, hmin, hb, hx]
    | some m =>
      cases hb : t.best with
      | none =>
        have hstep : t.step i x = ⟨some x, (i : ℤ), t.writes ++ [i]⟩ := by
          simp [Tracker.step, ltBest, hb]
        by_cases hmx : m < x
        · have hne : x ≠ m := ne_of_gt hmx
          have hmin : listMin (x :: rest) = some m := by
            rw [listMin_cons, hrest]
            simp [optMin, min_eq_right (le_of_lt hmx)]
          simp only [epochSpec, hstep, hrest, hmin, hb, hmx, if_pos,
            List.indexOf_cons_ne _ hne]
          push_cast
          ring
        · have hxm : x ≤ m := not_lt.mp hmx
          have hmin : listMin (x :: rest) = some x := by
            rw [listMin_cons, hrest]
            simp [optMin, min_eq_left hxm]
          simp [epochSpec, hstep, hrest, hmin, hb, hmx, List.indexOf_cons_self]
      | some b =>
        by_cases hxb : x < b
        · have hstep : t.step i x = ⟨some x, (i : ℤ), t.writes ++ [i]⟩ := by
            simp [Tracker.step, ltBest, hb, hxb]
          by_cases hmx : m < x
          · have hne : x ≠ m := ne_of_gt hmx
            have hmb : m < b := lt_trans hmx hxb
            have hmin : listMin (x :: rest) = some m := by
              rw [listMin_cons, hrest]
              simp [optMin, min_eq_right (le_of_lt hmx)]
            simp only [epochSpec, hstep, hrest, hmin, hb, hmx, hmb, if_pos,
              List.indexOf_cons_ne _ hne]
            push_cast
            ring
          · have hxm : x ≤ m := not_lt.mp hmx
            have hmin : listMin (x :: rest) = some x := by
              rw [listMin_cons, hrest]
              simp [optMin, min_eq_left hxm]
            simp [epochSpec, hstep, hrest, hmin, hb, hmx, hxb, List.indexOf_cons_self]
        · have hstep : t.step i x = t := by
            simp [Tracker.step, ltBest, hb, hxb]
          have hbx : b ≤ x := not_lt.mp hxb
          by_cases hmb : m < b
          · have hmx : m < x := lt_of_lt_of_le hmb hbx
            have hne : x ≠ m := ne_of_gt hmx
            have hmin : listMin (x :: rest) = some m := by
              rw [listMin_cons, hrest]
              simp [optMin, min_eq_right (le_of_lt hmx)]
            simp only [epochSpec, hstep, hrest, hmin, hb, hmb, hmx, if_pos,
              List.indexOf_cons_ne _ hne]
            push_cast
            ring
          · have hmin : listMin (x :: rest) = some (min x m) := by
              rw [listMin_cons, hrest]
              rfl
            have hnlt : ¬ min x m < b := by
              rcases le_total x m with h | h
              · rw [min_eq_left h]; exact hxb
              · rw [min_eq_right h]; exact hmb
            simp [epochSpec, hstep, hrest, hmin, hb, hmb, hnlt]

/-- `listMin` distributes over append as `optMin`. -/
theorem listMin_append (a b : List ℚ) :
    listMin (a ++ b) = optMin (listMin a) (listMin b) := by
  induction a with
  | nil => simp [listMin, optMin]
  | cons x rest ih => rw [List.cons_append, listMin_cons, ih, listMin_cons, optMin_assoc]

theorem optMin_none_left (b : Option ℚ) : optMin none b = b := rfl

theorem optLe_optMin_left (a b : Option ℚ) : optLe (optMin a b) a = true := by
  cases a <;> cases b <;> simp [optMin, optLe, min_le_left]

/-- The independence of the two trackers: one pass over the pairs is
the product of the two single-metric runs. -/
theorem runTrackersFrom_eq (ps : List (ℚ × ℚ)) (i : ℕ) (tm tl : Tracker) :
    runTrackersFrom i tm tl ps =
      (runTrackerFrom i tm (ps.map Prod.fst), runTrackerFrom i tl (ps.map Prod.snd)) := by
  induction ps generalizing i tm tl with
  | nil => rfl
  | cons p rest ih => rw [runTrackersFrom, ih]; rfl

/-- **C3.** The best-MAE tracker starts at `+inf` with epoch `-1`, is
updated — and its checkpoint file overwritten — exactly on strict
improvement, its best value after any run equals the minimum of the
metrics seen, the value is non-increasing along prefixes of the run,
and the recorded best epoch is the first index attaining the minimum;
the loss tracker is the same fold applied independently to the second
metric, so the two checkpoints may come from different epochs (as the
concrete run `[(1,2), (2,1)]`, whose best-MAE epoch is 0 and best-loss
epoch is 1, shows). -/
theorem c3_best_tracker (xs : List ℚ) :
    runTracker [] = Tracker.init ∧
    Tracker.init = ⟨none, -1, []⟩ ∧
    (∀ (t : Tracker) (i : ℕ) (x : ℚ),
      t.step i x = if ltBest x t.best then ⟨some x, i, t.writes ++ [i]⟩ else t) ∧
    (runTracker xs).best = listMin xs ∧
    (∀ k : ℕ, optLe (runTracker (xs.take (k + 1))).best
      (runTracker (xs.take k)).best = true) ∧
    (runTracker xs).bestEpoch = firstIdxOfMin xs ∧
    (∀ ps : List (ℚ × ℚ), runTrackers ps =
      (runTracker (ps.map Prod.fst), runTracker (ps.map Prod.snd))) ∧
    (runTrackers [(1, 2), (2, 1)]).1.bestEpoch = 0 ∧
    (runTrackers [(1, 2), (2, 1)]).2.bestEpoch = 1 := by
  refine ⟨rfl, rfl, fun t i x => rfl, ?_, ?_, ?_, ?_, by decide, by decide⟩
  · rw [runTracker, runTrackerFrom_best]; rfl
  · intro k
    rw [runTracker, runTracker, runTrackerFrom_best, runTrackerFrom_best]
    show optLe (optMin none (listMin (xs.take (k + 1)))) (optMin none (listMin (xs.take k))) = true
    rw [List.take_succ, listMin_append, optMin_none_left, optMin_none_left]
    exact optLe_optMin_left _ _
  · rw [runTracker, runTrackerFrom_epoch]
    cases h : listMin xs <;> simp [epochSpec, firstIdxOfMin, h, Tracker.init]
  · intro ps
    rw [runTrackers, runTrackersFrom_eq]
    rfl

/-! ### Freeze/unfreeze schedule (`main.py` lines 213-216 and 222-225)

Model parameters are abstract (`P`); `isFC` selects the parameters of
the replaced final classification head `model.fc`.  `requires_grad`
is a Boolean per parameter.
-/

/-- `for param in model.parameters(): param.requires_grad = False`
(lines 213-214). -/
def freezeAll {P : Type} : P → Bool := fun _ => false

/-- `for param in model.fc.parameters(): param.requires_grad = True`
(lines 215-216) applied on top of a trainability state. -/
def unfreezeFC {P : Type} (isFC : P → Bool) (g : P → Bool) : P → Bool :=
  fun p => if isFC p then true else g p

/-- Trainability before the epoch loop (lines 213-216). -/
def initGrad {P : Type} (isFC : P → Bool) : P → Bool :=
  unfreezeFC isFC freezeAll

/-- The in-loop update (lines 223-225): at epoch 10 every parameter
becomes trainable; other epochs leave the state unchanged. -/
def epochUpdate {P : Type} (e : ℕ) (g : P → Bool) : P → Bool :=
  if e = 10 then fun _ => true else g

/-- Trainability during epoch `e`'s training pass: the initial state
with the in-loop updates of epochs `0, …, e` applied. -/
def gradAt {P : Type} (isFC : P → Bool) : ℕ → P → Bool
  | 0 => epochUpdate 0 (initGrad isFC)
  | e + 1 => epochUpdate (e + 1) (gradAt isFC e)

/-- Closed form of the schedule: a parameter is trainable at epoch `e`
iff the unfreeze epoch has been reached or it belongs to the head. -/
theorem gradAt_eq {P : Type} (isFC : P → Bool) (e : ℕ) (p : P) :
    gradAt isFC e p = (decide (10 ≤ e) || isFC p) := by
  induction e with
  | zero => simp [gradAt, epochUpdate, initGrad, unfreezeFC, freezeAll]
  | succ e ih =>
    by_cases h : e + 1 = 10
    · simp [gradAt, epochUpdate, h]
    · rw [gradAt, epochUpdate, if_neg h, ih,
        show decide (10 ≤ e) = decide (10 ≤ e + 1) from decide_eq_decide.mpr (by omega)]

/-- **C6.** Before epoch 0 exactly the classification-head parameters
are trainable; at epoch 10 (and at every later epoch) all parameters
are trainable; trainability never decreases from one epoch to the
next, and the only change an epoch step can make is the epoch-10
switch-on — the transition happens at most once and is never
reversed. -/
theorem c6_freeze_schedule {P : Type} (isFC : P → Bool) :
    (∀ p, initGrad isFC p = isFC p) ∧
    (∀ p, gradAt isFC 10 p = true) ∧
    (∀ e p, gradAt isFC e p = (decide (10 ≤ e) || isFC p)) ∧
    (∀ e p, gradAt isFC e p ≤ gradAt isFC (e + 1) p) ∧
    (∀ e p, gradAt isFC (e + 1) p = (gradAt isFC e p || decide (e + 1 = 10))) := by
  refine ⟨fun p => by simp [initGrad, unfreezeFC, freezeAll],
    fun p => by simp [gradAt_eq], gradAt_eq isFC, fun e p => ?_, fun e p => ?_⟩
  · rw [gradAt_eq, gradAt_eq]
    by_cases h10 : 10 ≤ e
    · simp [h10, show 10 ≤ e + 1 by omega]
    · simp [h10]
      cases isFC p <;> simp
  · rw [gradAt_eq, gradAt_eq]
    by_cases h : e + 1 = 10
    · simp [h, show 10 ≤ e + 1 by omega]
    · rw [show decide (10 ≤ e + 1) = decide (10 ≤ e) from decide_eq_decide.mpr (by omega)]
      simp [h]

/-! ### `main` (`main.py` lines 157-249)

`main` is modelled as a pure function of the parsed CLI arguments and
of its external collaborators: the filesystem (`os.listdir`,
`os.path.exists`), the `np.random.choice` draw, and the torch
training/evaluation dynamics.  The dynamics oracle receives exactly
the data `main` feeds into training — the three file lists, the batch
size and the learning rate — plus the epoch index, and returns the
validation MAE, the total validation loss and the test MAE of that
epoch.  `args.resume` (line 165) is parsed but consumed nowhere. -/

structure Args where
  batch_size : ℕ
  image_directory : String
  leave_subject : ℤ
  learning_rate : ℚ
  epoch : ℕ
  resume : Option String
  result_directory : Option String

structure Externals where
  listdir : String → List String
  dirExists : String → Bool
  choice : ℕ → ℕ → Finset ℕ
  metrics : List String → List String → List String → ℕ → ℚ → ℕ → ℚ × ℚ × ℚ

/-- Observable filesystem side effects of `main`. -/
inductive Effect
  | mkdir (path : String)
  | writeLog (path : String)
  | saveCheckpoint (path : String) (epoch : ℕ)
deriving DecidableEq

/-- The epoch loop (lines 222-244): per epoch, run both best-metric
trackers on the oracle's `(mae, loss)` and record the epoch-summary
log write and any checkpoint overwrites, in program order. -/
def epochLoop (rd : String) (metr : ℕ → ℚ × ℚ) : ℕ → Tracker × Tracker × List Effect
  | 0 => (.init, .init, [])
  | n + 1 =>
    let prev := epochLoop rd metr n
    let tm := prev.1
    let tl := prev.2.1
    let mae := (metr n).1
    let loss := (metr n).2
    (tm.step n mae, tl.step n loss,
      prev.2.2 ++ [Effect.writeLog (rd ++ "/log")] ++
      (if ltBest mae tm.best then [Effect.saveCheckpoint (rd ++ "/model_best_mae") n] else []) ++
      (if ltBest loss tl.best then [Effect.saveCheckpoint (rd ++ "/model_best_loss") n] else []))

/-- Everything a run computes and writes. -/
structure Trace where
  trainList : List String
  valList : List String
  testList : List String
  perEpoch : List (ℚ × ℚ × ℚ)
  maeTracker : Tracker
  lossTracker : Tracker

/-- `main` (lines 170-249).  `os.path.exists(None)` — the default of
the `--result_directory` flag — raises `TypeError` (line 174) before
the dataset split, so the pair holds the effects performed before the
outcome and the outcome itself. -/
def mainRun (args : Args) (ext : Externals) : List Effect × Except String Trace :=
  match args.result_directory with
  | none => ([], .error "TypeError: os.path.exists(None)")
  | some rd =>
    let mk := if ext.dirExists rd then [] else [Effect.mkdir rd]
    match get_image_list args.image_directory ext.choice (ext.listdir args.image_directory)
        args.leave_subject VALIDATION_RATE with
    | .error e => (mk, .error e)
    | .ok (tr, v, te) =>
      let metr := fun e => ext.metrics tr v te args.batch_size args.learning_rate e
      let loop := epochLoop rd (fun e => ((metr e).1, (metr e).2.1)) args.epoch
      (mk ++ loop.2.2 ++ [Effect.writeLog (rd ++ "/log")],
       .ok { trainList := tr, valList := v, testList := te,
             perEpoch := (List.range args.epoch).map metr,
             maeTracker := loop.1, lossTracker := loop.2.1 })

/-- **C2.** The `--resume` flag never affects the run: two invocations
of `main` that differ only in the resume argument perform the same
side effects and produce the same trace — file lists, per-epoch
metrics, trackers — because the parsed path is never loaded into the
model or read anywhere else. -/
theorem c2_resume_never_affects_run (args : Args) (ext : Externals)
    (r₁ r₂ : Option String) :
    mainRun { args with resume := r₁ } ext = mainRun { args with resume := r₂ } ext := by
  cases args
  rfl

/-- **C9.** With `--result_directory` omitted (default `None`), `main`
raises at the `os.path.exists` check: no effect is performed — no
directory is created, nothing is written — and the outcome is the same
whatever the directory listing, the random draw or the training
dynamics are, i.e. the error precedes the dataset split and the
training loop. -/
theorem c9_missing_result_directory (args : Args) (ext : Externals)
    (h : args.result_directory = none) :
    mainRun args ext = ([], .error "TypeError: os.path.exists(None)") ∧
    (∀ ext' : Externals, mainRun args ext' = mainRun args ext) := by
  constructor
  · unfold mainRun
    rw [h]
  · intro ext'
    unfold mainRun
    rw [h]

/-- Witness for `c9_missing_result_directory`: concrete arguments with
the flag left at its default. -/
theorem c9_missing_result_directory_witness :
    mainRun ⟨16, "imgs", 1, 1/1000, 5, none, none⟩
      ⟨fun _ => [], fun _ => false, fun _ _ => ∅, fun _ _ _ _ _ _ => (0, 0, 0)⟩ =
      ([], .error "TypeError: os.path.exists(None)") :=
  (c9_missing_result_directory ⟨16, "imgs", 1, 1/1000, 5, none, none⟩
    ⟨fun _ => [], fun _ => false, fun _ _ => ∅, fun _ _ _ _ _ _ => (0, 0, 0)⟩ rfl).1

/-! ### The unguarded batch-average divisions of `evaluate` and `test`
(`main.py` lines 108-112 and 130)

The per-batch torch computation is an oracle; what is embedded is the
accumulation over the loader and the final division by
`len(loader)`. -/

/-- Python division by a length: raises `ZeroDivisionError` on an
empty loader. -/
def pydiv (x : ℚ) (n : ℕ) : Except String ℚ :=
  if n = 0 then .error "ZeroDivisionError" else .ok (x / n)

/-- `evaluate` (lines 82-112): accumulate each batch's `(mean_loss,
variance_loss, softmax_loss, loss, abs_error)` contribution, then
divide every total by `len(val_loader)` with no emptiness guard. -/
def evaluateRun {B : Type} (contrib : B → ℚ × ℚ × ℚ × ℚ × ℚ)
    (loader : List B) : Except String (ℚ × ℚ × ℚ × ℚ × ℚ) := do
  let t := loader.foldl
    (fun acc b =>
      (acc.1 + (contrib b).1, acc.2.1 + (contrib b).2.1,
       acc.2.2.1 + (contrib b).2.2.1, acc.2.2.2.1 + (contrib b).2.2.2.1,
       acc.2.2.2.2 + (contrib b).2.2.2.2))
    (0, 0, 0, 0, 0)
  let m ← pydiv t.1 loader.length
  let v ← pydiv t.2.1 loader.length
  let s ← pydiv t.2.2.1 loader.length
  let l ← pydiv t.2.2.2.1 loader.length
  let a ← pydiv t.2.2.2.2 loader.length
  return (m, v, s, l, a)

/-- `test` (lines 115-130): accumulate each batch's absolute error and
divide by `len(test_loader)` with no emptiness guard. -/
def testRun {B : Type} (contrib : B → ℚ) (loader : List B) : Except String ℚ := do
  let t := loader.foldl (fun acc b => acc + contrib b) 0
  let m ← pydiv t loader.length
  return m

/-- Reduction of an `Except` bind on a success value. -/
theorem bind_ok_eq {α β : Type} (a : α) (f : α → Except String β) :
    (do let x ← (Except.ok a : Except String α); f x) = f a := rfl

/-- **C10.** `evaluate` and `test` succeed exactly on a non-empty
loader; on an empty validation/test set both raise
`ZeroDivisionError` instead of returning a value. -/
theorem c10_empty_loader_division :
    (∀ (B : Type) (contrib : B → ℚ × ℚ × ℚ × ℚ × ℚ) (loader : List B),
      (evaluateRun contrib loader).isOk = !loader.isEmpty) ∧
    (∀ (B : Type) (contrib : B → ℚ) (loader : List B),
      (testRun contrib loader).isOk = !loader.isEmpty) ∧
    (∀ (B : Type) (contrib : B → ℚ × ℚ × ℚ × ℚ × ℚ),
      evaluateRun contrib ([] : List B) = .error "ZeroDivisionError") ∧
    (∀ (B : Type) (contrib : B → ℚ),
      testRun contrib ([] : List B) = .error "ZeroDivisionError") := by
  refine ⟨fun B contrib loader => ?_, fun B contrib loader => ?_,
    fun B contrib => rfl, fun B contrib => rfl⟩
  · cases loader with
    | nil => rfl
    | cons b rest =>
      simp [evaluateRun, pydiv, Except.isOk, Except.toBool, bind_ok_eq]
  · cases loader with
    | nil => rfl
    | cons b rest =>
      simp [testRun, pydiv, Except.isOk, Except.toBool, bind_ok_eq]

/-! ### Softmax losses of `train` and `evaluate` (lines 53-56 and 94-98)

The cross-entropy criterion (`torch.nn.CrossEntropyLoss`, line 208)
and the softmax applied by `evaluate` (lines 95-96) are transcendental,
so this part of the embedding lives in `ℝ`.  Labels are in-range class
indices (`Fin K`), per the dataset contract. -/

/-- `nn.Softmax(dim=1)` applied to one row of scores. -/
noncomputable def softmax {K : ℕ} (x : Fin K → ℝ) : Fin K → ℝ :=
  fun k => Real.exp (x k) / ∑ j, Real.exp (x j)

/-- `torch.nn.CrossEntropyLoss()(out, target)`: batch mean of
`log Σ_j exp(out i j) - out i (target i)`, i.e. of the negative
log-softmax at the target class. -/
noncomputable def crossEntropyLoss {n K : ℕ}
    (out : Fin n → Fin K → ℝ) (target : Fin n → Fin K) : ℝ :=
  (∑ i, (Real.log (∑ j, Real.exp (out i j)) - out i (target i))) / n

/-- The class index of a label, `label - START_AGE` (§4.2 of the
spec). -/
def classIndex {K : ℕ} (y : Fin K) : Fin K :=
  ⟨y.val - START_AGE, lt_of_le_of_lt (Nat.sub_le y.val START_AGE) y.isLt⟩

/-- The scalar `train` backpropagates (lines 54-58):
`loss = mean_loss + variance_loss + softmax_loss`, all three computed
from the raw model output and the labels, and `loss.backward()` is
called on exactly this sum. -/
noncomputable def trainBackpropScalar {n K : ℕ} (L : MeanVarianceLoss ℝ)
    (out : Fin n → Fin K → ℝ) (labels : Fin n → Fin K) : ℝ :=
  (L.forward out fun i => ((labels i).val : ℝ)).1 +
  (L.forward out fun i => ((labels i).val : ℝ)).2 +
  crossEntropyLoss out labels

/-- `softmax_loss` as `train` computes it (line 55): cross-entropy on
the raw logits. -/
noncomputable def trainSoftmaxLoss {n K : ℕ}
    (out : Fin n → Fin K → ℝ) (labels : Fin n → Fin K) : ℝ :=
  crossEntropyLoss out labels

/-- `softmax_loss` as `evaluate` computes it (lines 95-98): the output
is passed through `nn.Softmax` before the cross-entropy criterion. -/
noncomputable def evalSoftmaxLoss {n K : ℕ}
    (out : Fin n → Fin K → ℝ) (labels : Fin n → Fin K) : ℝ :=
  crossEntropyLoss (fun i => softmax (out i)) labels

/-- **C7.** The scalar backpropagated by a training step is exactly
`mean_loss + variance_loss + softmax_loss`, where `softmax_loss` is
the categorical cross-entropy between the raw logits and the class
index `label - START_AGE`; with `START_AGE = 0` that index is the
label itself, which is what `criterion2(output, labels)` receives.
Nothing else enters the sum passed to `loss.backward()`. -/
theorem c7_total_loss {n K : ℕ} (L : MeanVarianceLoss ℝ)
    (out : Fin n → Fin K → ℝ) (labels : Fin n → Fin K) :
    trainBackpropScalar L out labels =
      (L.forward out fun i => ((labels i).val : ℝ)).1 +
      (L.forward out fun i => ((labels i).val : ℝ)).2 +
      crossEntropyLoss out (fun i => classIndex (labels i)) ∧
    (∀ i, classIndex (labels i) = labels i) ∧
    trainBackpropScalar L out labels =
      (L.forward out fun i => ((labels i).val : ℝ)).1 +
      (L.forward out fun i => ((labels i).val : ℝ)).2 +
      trainSoftmaxLoss out labels := by
  have hidx : ∀ i, classIndex (labels i) = labels i := by
    intro i
    apply Fin.ext
    simp [classIndex, START_AGE]
  exact ⟨by rw [show (fun i => classIndex (labels i)) = labels from funext hidx]; rfl,
    hidx, rfl⟩

/-- A single-sample model output with raw score `log 69` on class 0
and `0` on the 69 other classes. -/
noncomputable def exOut : Fin 1 → Fin 70 → ℝ :=
  fun _ k => if k = (0 : Fin 70) then Real.log 69 else 0

/-- The matching label: class 0. -/
def exLabel : Fin 1 → Fin 70 := fun _ => 0

/-- The sum of exponentials of `exOut`'s scores. -/
theorem exOut_sum_exp : (∑ j : Fin 70, Real.exp (exOut 0 j)) = 138 := by
  have h : ∀ j : Fin 70, Real.exp (exOut 0 j) = (if j = 0 then (68 : ℝ) else 0) + 1 := by
    intro j
    by_cases hj : j = 0
    · simp [exOut, hj, Real.exp_log (by norm_num : (0:ℝ) < 69)]
      norm_num
    · simp [exOut, hj]
  rw [Finset.sum_congr rfl fun j _ => h j, Finset.sum_add_distrib,
    Finset.sum_ite_eq' Finset.univ (0 : Fin 70) fun _ => (68 : ℝ)]
  simp
  norm_num

/-- **C8.** `evaluate`'s `softmax_loss` is not the same function of
the model output as `train`'s: `evaluate` softmaxes the logits before
the cross-entropy criterion while `train` passes them raw, and the two
differ at the concrete single-sample output `exOut` with label 0 —
`train` yields `log 2` while `evaluate` yields a strictly larger
value. -/
theorem c8_eval_train_softmax_loss_differ :
    trainSoftmaxLoss exOut exLabel = Real.log 2 ∧
    evalSoftmaxLoss exOut exLabel ≠ trainSoftmaxLoss exOut exLabel := by
  have hS := exOut_sum_exp
  have htrain : trainSoftmaxLoss exOut exLabel = Real.log 2 := by
    unfold trainSoftmaxLoss crossEntropyLoss
    rw [Fin.sum_univ_one, hS]
    simp only [exLabel, exOut, if_pos rfl, ite_true, Nat.cast_one, div_one]
    rw [show (138 : ℝ) = 2 * 69 by norm_num,
      Real.log_mul two_ne_zero (by norm_num : (69:ℝ) ≠ 0)]
    ring
  refine ⟨htrain, ?_⟩
  have hs_pos : ∀ k, 0 < softmax (exOut 0) k := by
    intro k
    apply div_pos (Real.exp_pos _)
    rw [hS]
    norm_num
  have hs0 : softmax (exOut 0) 0 = 1 / 2 := by
    unfold softmax
    rw [hS]
    simp [exOut, Real.exp_log (by norm_num : (0:ℝ) < 69)]
    norm_num
  have hT : (70 : ℝ) < ∑ j : Fin 70, Real.exp (softmax (exOut 0) j) := by
    have h70 : (70 : ℝ) = ∑ _j : Fin 70, (1 : ℝ) := by simp
    rw [h70]
    refine Finset.sum_lt_sum_of_nonempty Finset.univ_nonempty fun j _ => ?_
    calc (1 : ℝ) = Real.exp 0 := Real.exp_zero.symm
    _ < Real.exp (softmax (exOut 0) j) := Real.exp_lt_exp.mpr (hs_pos j)
  have heval : evalSoftmaxLoss exOut exLabel =
      Real.log (∑ j : Fin 70, Real.exp (softmax (exOut 0) j)) - 1 / 2 := by
    unfold evalSoftmaxLoss crossEntropyLoss
    rw [Fin.sum_univ_one]
    simp only [exLabel, Nat.cast_one, div_one]
    rw [hs0]
  have hlog : Real.log 70 < Real.log (∑ j : Fin 70, Real.exp (softmax (exOut 0) j)) :=
    Real.log_lt_log (by norm_num) hT
  have hexph : Real.exp (1 / 2 : ℝ) < 2.7182818286 :=
    lt_trans (Real.exp_lt_exp.mpr (by norm_num)) Real.exp_one_lt_d9
  have h2e : 2 * Real.exp (1 / 2 : ℝ) < 70 := by nlinarith [Real.exp_pos (1 / 2 : ℝ)]
  have hlog2 : Real.log 2 + 1 / 2 < Real.log 70 := by
    have := Real.log_lt_log (by positivity) h2e
    rwa [Real.log_mul two_ne_zero (Real.exp_ne_zero _), Real.log_exp] at this
  rw [heval, htrain]
  intro hcontra
  rw [← hcontra] at hlog2
  linarith

end AgeEstimation
